import Mathlib

/-!
# Verification of the Taplytics → DevCycle import tool

A shallow embedding of the record-merging, key-normalization, filter-translation
and API-orchestration logic of the import tool (`main.go`, `taplytics.go`,
`devcycle.go`), with theorems settling the specification claims.

Strings are modelled as Lean `String`s; Go byte/rune handling is faithful for
the ASCII inputs the tool processes.  Go maps are modelled as association
lists in insertion order (map *content* is deterministic in Go; only iteration
order is not, and no claim depends on iteration order).  HTTP traffic is
modelled by an oracle: a list of status codes consumed one per request.
-/

namespace TaplyticsImport

/-- Character-class test used by the word splitter: ASCII uppercase letter. -/
def isUpperAlpha (c : Char) : Bool := 'A' ≤ c && c ≤ 'Z'

/-- ASCII lowercase letter. -/
def isLowerAlpha (c : Char) : Bool := 'a' ≤ c && c ≤ 'z'

/-- ASCII digit. -/
def isDigitCh (c : Char) : Bool := '0' ≤ c && c ≤ '9'

/-- A character that belongs to a word (letter or digit); every other
character acts as a delimiter for `strcase.ToKebab`. -/
def isWordChar (c : Char) : Bool := isUpperAlpha c || isLowerAlpha c || isDigitCh c

/-- ASCII lower-casing, as applied by `strcase.ToKebab`. -/
def toLowerCh (c : Char) : Char :=
  if isUpperAlpha c then Char.ofNat (c.toNat + 32) else c

/-- Auxiliary for `goSplit`: walks the remaining characters, accumulating the
current chunk in reverse. Mirrors Go `strings.Split` with a one-character
separator. -/
def splitChAux (sep : Char) : List Char → List Char → List String
  | [], acc => [String.mk acc.reverse]
  | c :: rest, acc =>
    if c = sep then String.mk acc.reverse :: splitChAux sep rest []
    else splitChAux sep rest (c :: acc)

/-- Go `strings.Split(s, sep)` for a one-character separator: `""` yields
`[""]`, and separators at the ends yield empty chunks, as in Go. -/
def goSplit (s : String) (sep : Char) : List String :=
  splitChAux sep s.data []

/-- Go `strings.Join(parts, sep)` for a one-character separator, at the
character-list level. -/
def joinCh (sep : Char) : List (List Char) → List Char
  | [] => []
  | [w] => w
  | w :: rest => w ++ sep :: joinCh sep rest

/-- Word splitter of the vendored dependency `github.com/ettle/strcase`:
walks the characters keeping the current word (reversed) as `cur`; a
non-word character ends the word; an uppercase letter after a lowercase
letter or digit, or an uppercase letter that is followed by a lowercase
letter while the previous character is uppercase, starts a new word. -/
def splitWordsAux : List Char → List Char → List (List Char)
  | [], cur => if cur.isEmpty then [] else [cur.reverse]
  | c :: rest, cur =>
    if isWordChar c then
      match cur with
      | [] => splitWordsAux rest [c]
      | p :: _ =>
        if isUpperAlpha c &&
            (isLowerAlpha p || isDigitCh p ||
              (isUpperAlpha p && (match rest with
                | r :: _ => isLowerAlpha r
                | [] => false))) then
          cur.reverse :: splitWordsAux rest [c]
        else
          splitWordsAux rest (c :: cur)
    else
      if cur.isEmpty then splitWordsAux rest []
      else cur.reverse :: splitWordsAux rest []

/-- The words of a character sequence, per `strcase`'s boundary rules. -/
def splitWords (cs : List Char) : List (List Char) := splitWordsAux cs []

/-- `strcase.ToKebab` on a character list: split into words, lower-case each
word, join with `-`. -/
def kebabOfList (cs : List Char) : List Char :=
  joinCh '-' ((splitWords cs).map (List.map toLowerCh))

/-- `strcase.ToKebab` from the vendored dependency `github.com/ettle/strcase`,
as used by `toKey` in `taplytics.go`. -/
def toKebab (s : String) : String := String.mk (kebabOfList s.data)

/-- The character filter of `toKey` (`taplytics.go`): keep ASCII letters,
digits, `_`, `-` and `.`; drop everything else (Go `strings.Map` returning
`-1`). -/
def keepKeyChar (c : Char) : Bool :=
  (isLowerAlpha c || isUpperAlpha c || isDigitCh c || c = '_' || c = '-' || c = '.')

/-- The strip pass of `toKey`: remove every character
`keepKeyChar` rejects. -/
def stripKey (s : String) : String := String.mk (s.data.filter keepKeyChar)

/-- `toKey` (`taplytics.go`): split the name on `.`, kebab-case each section,
join the sections with `_`, then strip disallowed characters. -/
def toKey (name : String) : String :=
  let sections := goSplit name '.'
  let modifiedSections := sections.map toKebab
  stripKey (String.mk (joinCh '_' (modifiedSections.map String.data)))

/-- `convertTaplyticsVarTypeToDevCycle` (`taplytics.go`): map a Taplytics
variable type to the DevCycle type tag, defaulting to `String`. Go's
`strings.ToLower` is modelled by ASCII lower-casing. -/
def goToLower (s : String) : String := String.mk (s.data.map toLowerCh)

/-- `convertTaplyticsVarTypeToDevCycle` from `taplytics.go`. -/
def convertTaplyticsVarTypeToDevCycle (tlType : String) : String :=
  match goToLower tlType with
  | "string" => "String"
  | "number" => "Number"
  | "boolean" => "Boolean"
  | "json" => "JSON"
  | _ => "String"

/-- A Go `interface{}` JSON value as it appears in filter `values` and
variable `value` fields. Numeric payloads are modelled over `Int`; no claim
inspects a numeric value, only the `string` type assertion in the source
matters. -/
inductive GoAny where
  | str (s : String)
  | num (n : Int)
  | boolean (b : Bool)
  | null
deriving DecidableEq, Repr

/-- `TLVariable` (`taplytics.go`). -/
structure TLVariable where
  name : String
  type : String
  value : GoAny
deriving DecidableEq, Repr

/-- `TLFilterItem` (`taplytics.go`). -/
structure TLFilterItem where
  type : String
  comparator : String
  values : List GoAny
  subType : String
  dataKey : String
  dataKeyType : String
deriving DecidableEq, Repr

/-- `TLFilter` (`taplytics.go`): boolean operator plus ordered filter items. -/
structure TLFilter where
  operator : String
  filters : List TLFilterItem
deriving DecidableEq, Repr

/-- `TLAudience` (`taplytics.go`). -/
structure TLAudience where
  name : String
  filters : TLFilter
deriving DecidableEq, Repr

/-- `TLDistribution` (`taplytics.go`). The `float64` percentage is carried
opaquely; no claim computes with it. -/
structure TLDistribution where
  name : String
  percentage : Float

/-- `TLVariation` (`taplytics.go`). -/
structure TLVariation where
  name : String
  «variables» : List TLVariable
  distribution : Float

/-- `TLTarget` (`taplytics.go`). -/
structure TLTarget where
  name : String
  audience : TLAudience
  distribution : List TLDistribution

/-- `TLImportRecord`: a source export record. The repository's variants of
this struct differ (`taplytics.go` declares `variations`/`targets`, while
`main.go` reads `Variables` and `devcycle.go` reads `Audience`); the
embedding carries every field the three files access, each function using
exactly the fields its source file uses. -/
structure TLImportRecord where
  id : String
  featureName : String
  «variables» : List TLVariable
  variations : List TLVariation
  tags : List String
  targets : List TLTarget
  audience : TLAudience
  distribution : List TLDistribution

/-- `TLImportFormat` (`taplytics.go`). -/
structure TLImportFormat where
  tlProject : String
  dvcProject : String
  records : List TLImportRecord

/-- Go map lookup on the association-list model. -/
def goLookup (m : List (String × α)) (k : String) : Option α :=
  match m.find? (fun kv => kv.1 = k) with
  | some kv => some kv.2
  | none => none

/-- Go map assignment `m[k] = v` on the association-list model: overwrite the
existing binding, else append a new one. -/
def goInsert (m : List (String × α)) (k : String) (v : α) : List (String × α) :=
  if (m.find? (fun kv => kv.1 = k)).isSome then
    m.map (fun kv => if kv.1 = k then (k, v) else kv)
  else
    m ++ [(k, v)]

/-- The per-record body of the merge loop in `main` (`main.go`): if the
feature name is unseen the record is stored as the seed; otherwise the
guard `mergedFeatures[feature.FeatureName].FeatureName != feature.FeatureName`
is evaluated and only when it holds are the record's variables appended to
the stored record. -/
def mergeStep (mergedFeatures : List (String × TLImportRecord))
    (feature : TLImportRecord) : List (String × TLImportRecord) :=
  match goLookup mergedFeatures feature.featureName with
  | none => goInsert mergedFeatures feature.featureName feature
  | some stored =>
    if stored.featureName ≠ feature.featureName then
      goInsert mergedFeatures feature.featureName
        { stored with «variables» := stored.variables ++ feature.variables }
    else
      mergedFeatures

/-- The pre-merge sweep in `main` (`main.go`): records with zero variables
are dropped. -/
def cleanedRecords (records : List TLImportRecord) : List TLImportRecord :=
  records.filter (fun feature => feature.variables.length ≠ 0)

/-- The record merger of `main` (`main.go`): filter out zero-variable
records, then fold `mergeStep` over the survivors into the
`mergedFeatures` map. -/
def mergeRecords (records : List TLImportRecord) : List (String × TLImportRecord) :=
  (cleanedRecords records).foldl mergeStep []

/-- `GetCustomDataProperties` (`taplytics.go`): scan every record's targets'
audience filters and collect the first `(dataKey, dataKeyType)` pair for each
non-empty `customData` data key. -/
def GetCustomDataProperties (t : TLImportFormat) : List (String × String) :=
  t.records.foldl (fun customData record =>
    record.targets.foldl (fun customData target =>
      target.audience.filters.filters.foldl (fun customData aud =>
        if aud.subType = "customData" && aud.dataKey ≠ "" then
          if (goLookup customData aud.dataKey).isSome then customData
          else goInsert customData aud.dataKey aud.dataKeyType
        else customData) customData) customData) []

/-- `DevCycleVariable` (`devcycle.go`). -/
structure DevCycleVariable where
  name : String
  description : String
  key : String
  type : String
deriving DecidableEq, Repr

/-- `DevCycleVariation` (`devcycle.go`); its `Variables` Go map is modelled
as an association list in insertion order. -/
structure DevCycleVariation where
  key : String
  name : String
  «variables» : List (String × GoAny)
deriving DecidableEq, Repr

/-- `SdkVisibility` (`devcycle.go`). -/
structure SdkVisibility where
  mobile : Bool
  client : Bool
  server : Bool
deriving DecidableEq, Repr

/-- `DevCycleNewFeaturePOSTBody` (`devcycle.go`). -/
structure DevCycleNewFeaturePOSTBody where
  name : String
  key : String
  description : String
  «variables» : List DevCycleVariable
  variations : List DevCycleVariation
  sdkVisibility : SdkVisibility
  type : String
  tags : List String
deriving DecidableEq, Repr

/-- State threaded through the variation loop of `createDevCycleFeature`
(`devcycle.go`): the accumulated `variables` slice, the `dedupeVariables`
map keyed by the raw variable name, and the accumulated `variations`
slice. The loop also fills `variationDistributionPct`, which the rest of
the function never reads; it is not carried. -/
structure FeatureBuildState where
  «variables» : List DevCycleVariable
  dedupeVariables : List (String × String)
  variations : List DevCycleVariation
deriving Repr

/-- Body of the inner variable loop of `createDevCycleFeature`
(`devcycle.go`): record the variation value under the normalized key, and
append a `DevCycleVariable` only when the raw name is new to
`dedupeVariables`. -/
def variableStep (acc : List (String × GoAny) × List (String × String) × List DevCycleVariable)
    (tlVariable : TLVariable) :
    List (String × GoAny) × List (String × String) × List DevCycleVariable :=
  let variationValues := goInsert acc.1 (toKey tlVariable.name) tlVariable.value
  if (goLookup acc.2.1 tlVariable.name).isSome then
    (variationValues, acc.2.1, acc.2.2)
  else
    (variationValues,
     goInsert acc.2.1 tlVariable.name tlVariable.type,
     acc.2.2 ++ [{ name := tlVariable.name,
                   description := "Imported from Taplytics: " ++ tlVariable.name,
                   key := toKey tlVariable.name,
                   type := convertTaplyticsVarTypeToDevCycle tlVariable.type }])

/-- Body of the outer variation loop of `createDevCycleFeature`
(`devcycle.go`). -/
def variationStep (st : FeatureBuildState) (tlVariation : TLVariation) : FeatureBuildState :=
  let r := tlVariation.variables.foldl variableStep ([], st.dedupeVariables, st.variables)
  { «variables» := r.2.2,
    dedupeVariables := r.2.1,
    variations := st.variations ++ [{ key := toKey tlVariation.name,
                                      name := tlVariation.name,
                                      «variables» := r.1 }] }

/-- The variable/variation accumulation of `createDevCycleFeature`
(`devcycle.go`) over the whole record. -/
def buildFeature (f : TLImportRecord) : FeatureBuildState :=
  f.variations.foldl variationStep ⟨[], [], []⟩

/-- The `variables` slice `createDevCycleFeature` has built when it reaches
the `len(variables) == 0` check. -/
def resolvedVariables (f : TLImportRecord) : List DevCycleVariable :=
  (buildFeature f).variables

/-- The `featurePayload` value POSTed by `createDevCycleFeature`
(`devcycle.go`). -/
def featurePayload (f : TLImportRecord) : DevCycleNewFeaturePOSTBody :=
  { name := f.featureName,
    key := toKey f.featureName,
    description := "Imported from Taplytics: " ++ f.featureName,
    «variables» := resolvedVariables f,
    variations := (buildFeature f).variations,
    sdkVisibility := { mobile := true, client := true, server := true },
    type := "release",
    tags := f.tags }

/-- The version fix of `createTargetingRule` (`devcycle.go`): a string that
`strings.Split(str, ".")` cuts into exactly two components gets `".0"`
appended. -/
def fixVersionStr (s : String) : String :=
  if (goSplit s '.').length = 2 then s ++ ".0" else s

/-- The per-value loop body of the version fix: only string values are
reassigned (`if str, ok := v.(string); ok`). -/
def fixVersionValue : GoAny → GoAny
  | .str s => .str (fixVersionStr s)
  | v => v

/-- The per-item loop of `createTargetingRule` (`devcycle.go`): for
`platformVersion` (fallthrough) and `appVersion` items the string values are
fixed in place; writes to `filter.Values[i]` land in the slice shared with
`tlFeature.Audience`, so the fixed values are what the payload carries. -/
def normalizeVersionFilterItem (filter : TLFilterItem) : TLFilterItem :=
  match filter.subType with
  | "platformVersion" => { filter with values := filter.values.map fixVersionValue }
  | "appVersion" => { filter with values := filter.values.map fixVersionValue }
  | _ => filter

/-- The audience as it stands after `createTargetingRule`'s version-fix loop
has run over every filter item. -/
def normalizeAudience (aud : TLAudience) : TLAudience :=
  { aud with filters := { aud.filters with
      filters := aud.filters.filters.map normalizeVersionFilterItem } }

/-- One entry of `distribRecord` (`devcycle.go` / `ToAPIDistribution` in
`taplytics.go`): `{_variation: toKey(name), percentage: percentage}`. -/
structure APIDistribution where
  variation : String
  percentage : Float

/-- `ToAPIDistribution` (`taplytics.go`). -/
def toAPIDistribution (d : TLDistribution) : APIDistribution :=
  { variation := toKey d.name, percentage := d.percentage }

/-- One element of the `targets` array of the configuration PATCH body. -/
structure TargetPayload where
  audience : TLAudience
  distribution : List APIDistribution

/-- The `configPayload` PATCHed by `createTargetingRule` (`devcycle.go`). -/
structure ConfigPayload where
  targets : List TargetPayload
  status : String

/-- The configuration PATCH body built by `createTargetingRule`
(`devcycle.go`) for a record: the (version-fixed) audience plus the mapped
distribution, wrapped as a single active target. -/
def targetingConfigPayload (f : TLImportRecord) : ConfigPayload :=
  { targets := [{ audience := normalizeAudience f.audience,
                  distribution := f.distribution.map toAPIDistribution }],
    status := "active" }

/-- One HTTP request issued by the tool, with the payload it carried. -/
inductive APICall where
  | getCustomProperties (proj : String)
  | postCustomProperty (proj : String) (propertyKey : String) (loweredKey : String)
      (dvcType : String)
  | postFeature (proj : String) (body : DevCycleNewFeaturePOSTBody)
  | patchConfig (proj : String) (featureKey : String) (env : String) (body : ConfigPayload)

/-- Outcome of running a piece of the orchestration against a response
oracle: whether it returned without error, the requests it issued in order,
and the lines it printed. -/
structure RunResult where
  ok : Bool
  calls : List APICall
  logs : List String

/-- `createTargetingRule` (`devcycle.go`) against the response oracle: build
the payload, issue one PATCH, succeed only on HTTP 200. An exhausted oracle
models a transport error. Returns the remaining oracle. -/
def createTargetingRule (proj featureKey env : String) (f : TLImportRecord)
    (responses : List Nat) : Bool × List APICall × List Nat :=
  let call := APICall.patchConfig proj featureKey env (targetingConfigPayload f)
  match responses with
  | [] => (false, [call], [])
  | s :: rest => (s = 200, [call], rest)

/-- The per-environment loop of `createDevCycleFeature` (`devcycle.go`):
create a targeting rule for each environment in order, aborting on the
first failure. -/
def runTargetingRules (proj featureKey : String) (f : TLImportRecord) :
    List String → List Nat → Bool × List APICall
  | [], _ => (true, [])
  | env :: envs, responses =>
    let r := createTargetingRule proj featureKey env f responses
    if r.1 then
      let rr := runTargetingRules proj featureKey f envs r.2.2
      (rr.1, r.2.1 ++ rr.2)
    else
      (false, r.2.1)

/-- `createDevCycleFeature` (`devcycle.go`) against the response oracle
(one status per request, feature POST first). With zero built variables the
function logs and returns nil without any request. On 409 it logs and
returns nil. On a 5xx status it logs, sleeps and calls itself again on the
remaining oracle — the recursion carries no attempt counter. On 201 with a
non-empty audience filter list it creates targeting rules for the three
fixed environments. Any other status is an error. -/
def createDevCycleFeature (proj : String) (f : TLImportRecord)
    (responses : List Nat) : RunResult :=
  if (resolvedVariables f).length = 0 then
    { ok := true, calls := [],
      logs := ["No variables to import for feature: " ++ f.featureName] }
  else
    let body := featurePayload f
    match responses with
    | [] => { ok := false, calls := [APICall.postFeature proj body], logs := [] }
    | s :: rest =>
      if s = 409 then
        { ok := true, calls := [APICall.postFeature proj body],
          logs := ["Feature already exists, skipping creation: " ++ f.featureName] }
      else if 500 ≤ s then
        let r := createDevCycleFeature proj f rest
        { ok := r.ok,
          calls := APICall.postFeature proj body :: r.calls,
          logs := "Retrying feature creation..." :: r.logs }
      else if s ≠ 201 then
        { ok := false, calls := [APICall.postFeature proj body], logs := [] }
      else
        if f.audience.filters.filters.length > 0 then
          let tr := runTargetingRules proj (toKey f.featureName) f
            ["development", "staging", "production"] rest
          { ok := tr.1, calls := APICall.postFeature proj body :: tr.2, logs := [] }
        else
          { ok := true, calls := [APICall.postFeature proj body], logs := [] }

/-- The deletion loop of `checkAndCreateCustomProperties` (`devcycle.go`):
every existing property key found in the requirements map is removed from
it. -/
def remainingCustomData (existingProps : List String)
    (customData : List (String × String)) : List (String × String) :=
  existingProps.foldl (fun cd prop => cd.filter (fun kv => kv.1 ≠ prop)) customData

/-- The type mapping of `createCustomProperty` (`devcycle.go`): declared
types other than Boolean/Number/JSON fall back to String. -/
def dvcPropertyType (dataType : String) : String :=
  match dataType with
  | "Boolean" => "Boolean"
  | "Number" => "Number"
  | "JSON" => "JSON"
  | _ => "String"

/-- The creation loop of `checkAndCreateCustomProperties` (`devcycle.go`):
empty keys are skipped with `continue` (no request, no error); other keys
get one POST each, with `createOk` deciding whether the service returns
201; the loop aborts on the first failure. -/
def createCustomPropsLoop (proj : String) (createOk : String → Bool) :
    List (String × String) → Bool × List APICall
  | [] => (true, [])
  | (key, dataType) :: rest =>
    if key = "" then createCustomPropsLoop proj createOk rest
    else
      let call := APICall.postCustomProperty proj key (goToLower key)
        (dvcPropertyType dataType)
      if createOk key then
        let r := createCustomPropsLoop proj createOk rest
        (r.1, call :: r.2)
      else
        (false, [call])

/-- `checkAndCreateCustomProperties` (`devcycle.go`): list the existing
properties, drop every requirement that already exists, then create the
rest. `existingProps` is the decoded GET response. -/
def checkAndCreateCustomProperties (proj : String) (existingProps : List String)
    (createOk : String → Bool) (customData : List (String × String)) :
    Bool × List APICall :=
  let r := createCustomPropsLoop proj createOk (remainingCustomData existingProps customData)
  (r.1, APICall.getCustomProperties proj :: r.2)

/-- A translated filter item as `convertTLFiltersToDevCycleTargeting`
(`taplytics.go`) builds it (a Go `map[string]interface{}`; `dataKey` is only
set in the `customData` branch). -/
structure DVCFilter where
  type : String
  subType : String
  comparator : String
  values : List GoAny
  dataKey : Option String
deriving DecidableEq, Repr

/-- The result map of `convertTLFiltersToDevCycleTargeting`
(`taplytics.go`). -/
structure DVCTargeting where
  operator : String
  filters : List DVCFilter
deriving DecidableEq, Repr

/-- `convertTLFiltersToDevCycleTargeting` (`taplytics.go`). In the
`appVersion` branch the source computes a `fixedValues` slice but then
executes `dvcFilter["values"] = filter.Values`, so the translated item
carries the original values. The `default` branch populates `dvcFilter`
and then executes `continue`, which skips the append at the bottom of the
loop: the item is dropped from the result. -/
def convertTLFiltersToDevCycleTargeting (tlFilter : TLFilter) : DVCTargeting :=
  { operator := tlFilter.operator,
    filters := tlFilter.filters.foldl (fun acc filter =>
      match filter.subType with
      | "appVersion" =>
        acc ++ [{ type := "user", subType := filter.subType,
                  comparator := filter.comparator,
                  values := filter.values, dataKey := none }]
      | "customData" =>
        acc ++ [{ type := "user", subType := "customData",
                  comparator := filter.comparator,
                  values := filter.values, dataKey := some filter.dataKey }]
      | _ => acc) [] }

/-! ## Test fixtures and trace observers -/

/-- An audience with no filters. -/
def emptyAudience : TLAudience := { name := "", filters := { operator := "and", filters := [] } }

/-- A variable fixture with a null value. -/
def mkVar (n t : String) : TLVariable := { name := n, type := t, value := GoAny.null }

/-- A record fixture carrying only a feature name and a flat variable
list, every other field empty. -/
def mkRecord (name : String) (vars : List TLVariable) : TLImportRecord :=
  { id := "", featureName := name, «variables» := vars, variations := [], tags := [],
    targets := [], audience := emptyAudience, distribution := [] }

/-- A one-filter audience fixture. -/
def oneFilterAudience (item : TLFilterItem) : TLAudience :=
  { name := "aud", filters := { operator := "and", filters := [item] } }

/-- Number of feature-creation POSTs in a trace. -/
def featurePostCount (calls : List APICall) : Nat :=
  calls.countP (fun c => match c with
    | APICall.postFeature _ _ => true
    | _ => false)

/-- Number of targeting-rule configuration PATCHes in a trace. -/
def patchCallCount (calls : List APICall) : Nat :=
  calls.countP (fun c => match c with
    | APICall.patchConfig _ _ _ _ => true
    | _ => false)

/-- Invariant of the variable-accumulation loop of `createDevCycleFeature`:
the built variables' names are exactly the keys of the `dedupeVariables`
map, in order and without duplicates. -/
def DedupInv (dedupe : List (String × String)) (vars : List DevCycleVariable) : Prop :=
  vars.map DevCycleVariable.name = dedupe.map Prod.fst ∧ (dedupe.map Prod.fst).Nodup

/-- A version string of exactly two non-empty numeric dot-separated
components, e.g. `"10.2"`. -/
def isNumericComponent (s : String) : Bool := !s.isEmpty && s.data.all isDigitCh

/-- Exactly two dot-separated numeric components. -/
def isTwoPartNumericVersion (s : String) : Bool :=
  match goSplit s '.' with
  | [a, b] => isNumericComponent a && isNumericComponent b
  | _ => false

/-- Exactly three dot-separated components, e.g. `"10.2.3"`. -/
def isThreePartVersion (s : String) : Bool := (goSplit s '.').length = 3

/-- A record with one resolvable variable and one pass-through audience
filter; used to exercise the 409 path. -/
def conflictFixture : TLImportRecord :=
  { mkRecord "conflicted" [mkVar "x" "string"] with
    variations := [{ name := "on", «variables» := [mkVar "x" "string"],
                     distribution := 1.0 }],
    audience := oneFilterAudience
      { type := "user", comparator := "=", values := [GoAny.str "iOS"],
        subType := "platform", dataKey := "", dataKeyType := "" } }

/-- An `appVersion` filter item with a two-component and a three-component
version value. -/
def appVersionItem : TLFilterItem :=
  { type := "user", comparator := ">",
    values := [GoAny.str "10.2", GoAny.str "10.2.3"],
    subType := "appVersion", dataKey := "", dataKeyType := "" }

/-- A record carrying `appVersionItem` as its only audience filter. -/
def appVersionFixture : TLImportRecord :=
  { mkRecord "f" [] with audience := oneFilterAudience appVersionItem }

/-- A record whose two distinct raw variable names normalize to the same
key `"button-color"`; used against the dedup-by-normalized-key claim. -/
def dupKeyFixture : TLImportRecord :=
  { mkRecord "dup" [] with
    variations := [{ name := "on",
                     «variables» := [mkVar "buttonColor" "string",
                                     mkVar "button-color" "string"],
                     distribution := 1.0 }] }

/-- A character that can occur inside a word of a kebab-cased string:
lowercase letter or digit. -/
def isLowerDigit (c : Char) : Bool := isLowerAlpha c || isDigitCh c

/-! ## Supporting lemmas -/

/-- For a valid scalar value, `Char.ofNat` round-trips through `toNat`. -/
theorem toNat_ofNat_valid (n : Nat) (h : n.isValidChar) : (Char.ofNat n).toNat = n := by
  unfold Char.ofNat
  rw [dif_pos h]
  rfl

/-- Lower-casing an uppercase ASCII letter yields a lowercase letter. -/
theorem toLowerCh_upper (c : Char) (h : isUpperAlpha c = true) :
    isLowerAlpha (toLowerCh c) = true := by
  unfold toLowerCh
  rw [if_pos h]
  simp only [isUpperAlpha, Bool.and_eq_true, decide_eq_true_eq] at h
  obtain ⟨h1, h2⟩ := h
  have hA : (65 : Nat) ≤ c.toNat := h1
  have hZ : c.toNat ≤ 90 := h2
  have hv : (c.toNat + 32).isValidChar := Or.inl (by omega)
  have ht : (Char.ofNat (c.toNat + 32)).toNat = c.toNat + 32 := toNat_ofNat_valid _ hv
  simp only [isLowerAlpha, Bool.and_eq_true, decide_eq_true_eq]
  refine ⟨?_, ?_⟩
  · show (97 : Nat) ≤ (Char.ofNat (c.toNat + 32)).toNat
    omega
  · show (Char.ofNat (c.toNat + 32)).toNat ≤ 122
    omega

/-- A character that is not an uppercase ASCII letter is untouched by
`toLowerCh`. -/
theorem toLowerCh_of_not_upper (c : Char) (h : isUpperAlpha c = false) :
    toLowerCh c = c := by
  unfold toLowerCh
  rw [h]
  rfl

/-- A lowercase letter or digit is not an uppercase letter. -/
theorem isLowerDigit_not_upper (c : Char) (h : isLowerDigit c = true) :
    isUpperAlpha c = false := by
  cases hu : isUpperAlpha c with
  | false => rfl
  | true =>
    exfalso
    simp only [isLowerDigit, isLowerAlpha, isDigitCh, Bool.or_eq_true, Bool.and_eq_true,
      decide_eq_true_eq] at h
    simp only [isUpperAlpha, Bool.and_eq_true, decide_eq_true_eq] at hu
    have h65 : (65 : Nat) ≤ c.toNat := hu.1
    have h90 : c.toNat ≤ 90 := hu.2
    rcases h with ⟨ha, _⟩ | ⟨_, h9⟩
    · exact absurd (show (97 : Nat) ≤ c.toNat from ha) (by omega)
    · exact absurd (show c.toNat ≤ 57 from h9) (by omega)

/-- A lowercase letter or digit is untouched by `toLowerCh`. -/
theorem toLowerCh_lowerDigit (c : Char) (h : isLowerDigit c = true) :
    toLowerCh c = c :=
  toLowerCh_of_not_upper c (isLowerDigit_not_upper c h)

/-- A lowercase letter or digit is a word character. -/
theorem isLowerDigit_wordChar (c : Char) (h : isLowerDigit c = true) :
    isWordChar c = true := by
  simp only [isLowerDigit, Bool.or_eq_true] at h
  simp only [isWordChar, Bool.or_eq_true]
  rcases h with h | h
  · exact Or.inl (Or.inr h)
  · exact Or.inr h

/-- Lower-casing a word character yields a lowercase letter or digit. -/
theorem toLowerCh_wordChar (c : Char) (h : isWordChar c = true) :
    isLowerDigit (toLowerCh c) = true := by
  simp only [isWordChar, Bool.or_eq_true] at h
  rcases h with (h | h) | h
  · simp only [isLowerDigit, Bool.or_eq_true]
    exact Or.inl (toLowerCh_upper c h)
  · have hld : isLowerDigit c = true := by
      simp only [isLowerDigit, Bool.or_eq_true]
      exact Or.inl h
    rw [toLowerCh_lowerDigit c hld]
    exact hld
  · have hld : isLowerDigit c = true := by
      simp only [isLowerDigit, Bool.or_eq_true]
      exact Or.inr h
    rw [toLowerCh_lowerDigit c hld]
    exact hld

/-- Unfolding equation: the splitter on an empty input flushes the current
word. -/
theorem splitWordsAux_nil (cur : List Char) :
    splitWordsAux [] cur = if cur.isEmpty then [] else [cur.reverse] := rfl

/-- Unfolding equation: a word character starts a word when none is open. -/
theorem splitWordsAux_word_nil (c : Char) (rest : List Char)
    (h : isWordChar c = true) :
    splitWordsAux (c :: rest) [] = splitWordsAux rest [c] := by
  show (if isWordChar c = true then splitWordsAux rest [c]
        else splitWordsAux rest []) = splitWordsAux rest [c]
  rw [if_pos h]

/-- Unfolding equation: a word character extends or splits an open word
according to the uppercase-boundary test. -/
theorem splitWordsAux_word_cons (c : Char) (rest : List Char) (p : Char)
    (cur' : List Char) (h : isWordChar c = true) :
    splitWordsAux (c :: rest) (p :: cur') =
      if (isUpperAlpha c &&
            (isLowerAlpha p || isDigitCh p ||
              (isUpperAlpha p && (match rest with
                | r :: _ => isLowerAlpha r
                | [] => false)))) = true
      then (p :: cur').reverse :: splitWordsAux rest [c]
      else splitWordsAux rest (c :: p :: cur') := by
  show (if isWordChar c = true then
      (if (isUpperAlpha c &&
            (isLowerAlpha p || isDigitCh p ||
              (isUpperAlpha p && (match rest with
                | r :: _ => isLowerAlpha r
                | [] => false)))) = true
      then (p :: cur').reverse :: splitWordsAux rest [c]
      else splitWordsAux rest (c :: p :: cur'))
    else ((p :: cur').reverse :: splitWordsAux rest [])) = _
  rw [if_pos h]

/-- Unfolding equation: a non-word character flushes the current word. -/
theorem splitWordsAux_notword (c : Char) (rest cur : List Char)
    (h : isWordChar c = false) :
    splitWordsAux (c :: rest) cur =
      if cur.isEmpty then splitWordsAux rest []
      else cur.reverse :: splitWordsAux rest [] := by
  cases cur with
  | nil =>
    show (if isWordChar c = true then splitWordsAux rest [c]
          else splitWordsAux rest []) = _
    rw [if_neg (by rw [h]; exact Bool.false_ne_true)]
    rfl
  | cons p cur' =>
    show (if isWordChar c = true then
        (if (isUpperAlpha c &&
              (isLowerAlpha p || isDigitCh p ||
                (isUpperAlpha p && (match rest with
                  | r :: _ => isLowerAlpha r
                  | [] => false)))) = true
        then (p :: cur').reverse :: splitWordsAux rest [c]
        else splitWordsAux rest (c :: p :: cur'))
      else ((p :: cur').reverse :: splitWordsAux rest [])) = _
    rw [if_neg (by rw [h]; exact Bool.false_ne_true)]
    rfl

/-- Every word the splitter produces is nonempty and made of word
characters, provided the open word is. -/
theorem splitWordsAux_words (cs : List Char) : ∀ (cur : List Char),
    (∀ c ∈ cur, isWordChar c = true) →
    ∀ w ∈ splitWordsAux cs cur, w ≠ [] ∧ ∀ c ∈ w, isWordChar c = true := by
  induction cs with
  | nil =>
    intro cur hcur w hw
    rw [splitWordsAux_nil] at hw
    by_cases hc : cur.isEmpty
    · rw [if_pos hc] at hw
      exact absurd hw (List.not_mem_nil w)
    · rw [if_neg hc] at hw
      rcases List.mem_singleton.mp hw with rfl
      refine ⟨?_, ?_⟩
      · intro hrev
        exact hc (by
          rw [List.isEmpty_iff]
          rw [← List.reverse_eq_nil_iff]
          exact hrev)
      · intro c hcm
        exact hcur c (List.mem_reverse.mp hcm)
  | cons c rest ih =>
    intro cur hcur w hw
    by_cases hwc : isWordChar c = true
    · cases cur with
      | nil =>
        rw [splitWordsAux_word_nil c rest hwc] at hw
        refine ih [c] ?_ w hw
        intro x hx
        rcases List.mem_singleton.mp hx with rfl
        exact hwc
      | cons p cur' =>
        rw [splitWordsAux_word_cons c rest p cur' hwc] at hw
        split at hw
        · rcases List.mem_cons.mp hw with rfl | hw'
          · refine ⟨by simp, ?_⟩
            intro x hx
            exact hcur x (List.mem_reverse.mp hx)
          · refine ih [c] ?_ w hw'
            intro x hx
            rcases List.mem_singleton.mp hx with rfl
            exact hwc
        · refine ih (c :: p :: cur') ?_ w hw
          intro x hx
          rcases List.mem_cons.mp hx with rfl | hx'
          · exact hwc
          · exact hcur x hx'
    · have hwcf : isWordChar c = false := Bool.eq_false_iff.mpr hwc
      rw [splitWordsAux_notword c rest cur hwcf] at hw
      by_cases hc : cur.isEmpty
      · rw [if_pos hc] at hw
        exact ih [] (by intro x hx; cases hx) w hw
      · rw [if_neg hc] at hw
        rcases List.mem_cons.mp hw with rfl | hw'
        · refine ⟨?_, ?_⟩
          · intro hrev
            exact hc (by
              rw [List.isEmpty_iff, ← List.reverse_eq_nil_iff]
              exact hrev)
          · intro x hx
            exact hcur x (List.mem_reverse.mp hx)
        · exact ih [] (by intro x hx; cases hx) w hw'

/-- Every word of `splitWords` is nonempty and made of word characters. -/
theorem splitWords_words (cs : List Char) :
    ∀ w ∈ splitWords cs, w ≠ [] ∧ ∀ c ∈ w, isWordChar c = true :=
  splitWordsAux_words cs [] (by intro x hx; cases hx)

/-- Consuming a run of lowercase/digit characters only extends the open
word: no boundary fires. -/
theorem splitWordsAux_lowerDigit_run : ∀ (w rest cur : List Char),
    (∀ c ∈ w, isLowerDigit c = true) →
    splitWordsAux (w ++ rest) cur = splitWordsAux rest (w.reverse ++ cur) := by
  intro w
  induction w with
  | nil => intro rest cur _; rfl
  | cons c w ih =>
    intro rest cur h
    have hc : isLowerDigit c = true := h c (List.mem_cons_self c w)
    have hwc : isWordChar c = true := isLowerDigit_wordChar c hc
    have hnu : isUpperAlpha c = false := isLowerDigit_not_upper c hc
    have htail : ∀ x ∈ w, isLowerDigit x = true :=
      fun x hx => h x (List.mem_cons_of_mem c hx)
    show splitWordsAux (c :: (w ++ rest)) cur = _
    cases cur with
    | nil =>
      rw [splitWordsAux_word_nil c (w ++ rest) hwc, ih rest [c] htail]
      rw [List.reverse_cons, List.append_nil]
    | cons p cur' =>
      rw [splitWordsAux_word_cons c (w ++ rest) p cur' hwc]
      split
      · next hb =>
        rw [hnu] at hb
        simp at hb
      · rw [ih rest (c :: p :: cur') htail]
        rw [List.reverse_cons, List.append_assoc]
        rfl

/-- Splitting the hyphen-join of nonempty lowercase/digit words recovers
exactly the words. -/
theorem splitWords_joinCh_kebab : ∀ (ws : List (List Char)),
    (∀ w ∈ ws, w ≠ [] ∧ ∀ c ∈ w, isLowerDigit c = true) →
    splitWords (joinCh '-' ws) = ws := by
  intro ws
  induction ws with
  | nil => intro _; rfl
  | cons w ws ih =>
    intro h
    obtain ⟨hwne, hwc⟩ := h w (List.mem_cons_self w ws)
    cases ws with
    | nil =>
      show splitWordsAux (joinCh '-' [w]) [] = [w]
      have h2 := splitWordsAux_lowerDigit_run w [] [] hwc
      rw [List.append_nil] at h2
      show splitWordsAux w [] = [w]
      rw [h2, List.append_nil, splitWordsAux_nil]
      rw [if_neg (by
        rw [List.isEmpty_iff, List.reverse_eq_nil_iff]
        exact hwne)]
      rw [List.reverse_reverse]
    | cons w' ws' =>
      show splitWordsAux (w ++ '-' :: joinCh '-' (w' :: ws')) [] = w :: w' :: ws'
      rw [splitWordsAux_lowerDigit_run w _ [] hwc, List.append_nil]
      rw [splitWordsAux_notword '-' _ _ (by rfl)]
      rw [if_neg (by
        rw [List.isEmpty_iff, List.reverse_eq_nil_iff]
        exact hwne)]
      rw [List.reverse_reverse]
      have hrec := ih (fun x hx => h x (List.mem_cons_of_mem w hx))
      unfold splitWords at hrec
      rw [hrec]

/-- Characters of a separator-join come from the separator or the words. -/
theorem mem_joinCh (sep : Char) : ∀ (ws : List (List Char)) (c : Char),
    c ∈ joinCh sep ws → c = sep ∨ ∃ w ∈ ws, c ∈ w := by
  intro ws
  induction ws with
  | nil => intro c hc; cases hc
  | cons w ws ih =>
    intro c hc
    cases ws with
    | nil => exact Or.inr ⟨w, List.mem_singleton.mpr rfl, hc⟩
    | cons w' ws' =>
      rcases List.mem_append.mp hc with hcw | hcr
      · exact Or.inr ⟨w, List.mem_cons_self w _, hcw⟩
      · rcases List.mem_cons.mp hcr with rfl | h'
        · exact Or.inl rfl
        · rcases ih c h' with h'' | ⟨w'', hw'', hc''⟩
          · exact Or.inl h''
          · exact Or.inr ⟨w'', List.mem_cons_of_mem w hw'', hc''⟩

/-- The separator occurs in the join of at least two words. -/
theorem sep_mem_joinCh (sep : Char) (w w' : List Char) (ws : List (List Char)) :
    sep ∈ joinCh sep (w :: w' :: ws) :=
  List.mem_append.mpr (Or.inr (List.mem_cons_self sep _))

/-- Every character of a kebab-cased string is a lowercase letter, digit
or hyphen. -/
theorem kebabOfList_chars (cs : List Char) (c : Char) (h : c ∈ kebabOfList cs) :
    isLowerDigit c = true ∨ c = '-' := by
  unfold kebabOfList at h
  rcases mem_joinCh '-' _ c h with rfl | ⟨w, hw, hc⟩
  · exact Or.inr rfl
  · rcases List.mem_map.mp hw with ⟨w0, hw0, rfl⟩
    rcases List.mem_map.mp hc with ⟨c0, hc0, rfl⟩
    exact Or.inl (toLowerCh_wordChar c0 ((splitWords_words cs w0 hw0).2 c0 hc0))

/-- Kebab-casing is idempotent at the character-list level. -/
theorem kebabOfList_idem (cs : List Char) :
    kebabOfList (kebabOfList cs) = kebabOfList cs := by
  have hws : ∀ w ∈ (splitWords cs).map (List.map toLowerCh),
      w ≠ [] ∧ ∀ c ∈ w, isLowerDigit c = true := by
    intro w hw
    rcases List.mem_map.mp hw with ⟨w0, hw0, rfl⟩
    obtain ⟨hne, hch⟩ := splitWords_words cs w0 hw0
    refine ⟨by simpa using hne, ?_⟩
    intro c hc
    rcases List.mem_map.mp hc with ⟨c0, hc0, rfl⟩
    exact toLowerCh_wordChar c0 (hch c0 hc0)
  show joinCh '-' ((splitWords (kebabOfList cs)).map (List.map toLowerCh)) = kebabOfList cs
  unfold kebabOfList
  rw [splitWords_joinCh_kebab _ hws]
  congr 1
  conv_rhs => rw [← List.map_id ((splitWords cs).map (List.map toLowerCh))]
  apply List.map_congr_left
  intro w hw
  obtain ⟨_, hch⟩ := hws w hw
  show List.map toLowerCh w = w
  conv_rhs => rw [← List.map_id w]
  apply List.map_congr_left
  intro c hc
  exact toLowerCh_lowerDigit c (hch c hc)

/-- Go's split never returns an empty list of chunks. -/
theorem splitChAux_ne_nil (sep : Char) (cs : List Char) : ∀ (acc : List Char),
    splitChAux sep cs acc ≠ [] := by
  induction cs with
  | nil => intro acc; simp [splitChAux]
  | cons c rest ih =>
    intro acc
    unfold splitChAux
    by_cases h : c = sep
    · rw [if_pos h]; simp
    · rw [if_neg h]; exact ih (c :: acc)

/-- Splitting on a character that does not occur returns the whole input as
the single chunk. -/
theorem splitChAux_not_mem (sep : Char) : ∀ (cs acc : List Char), sep ∉ cs →
    splitChAux sep cs acc = [String.mk (acc.reverse ++ cs)] := by
  intro cs
  induction cs with
  | nil => intro acc _; simp [splitChAux]
  | cons c rest ih =>
    intro acc h
    unfold splitChAux
    rw [if_neg (fun hc => h (by rw [hc]; exact List.mem_cons_self sep rest))]
    rw [ih (c :: acc) (fun hm => h (List.mem_cons_of_mem c hm))]
    rw [List.reverse_cons, List.append_assoc]
    rfl

/-- `goSplit` on a separator-free string is the identity chunk. -/
theorem goSplit_not_mem (s : String) (sep : Char) (h : sep ∉ s.data) :
    goSplit s sep = [s] := by
  unfold goSplit
  rw [splitChAux_not_mem sep s.data [] h]
  rfl

/-- Kebab characters and underscores survive the strip pass of `toKey`. -/
theorem keepKeyChar_lowerDigit (c : Char) (h : isLowerDigit c = true) :
    keepKeyChar c = true := by
  simp only [isLowerDigit, Bool.or_eq_true] at h
  simp only [keepKeyChar, Bool.or_eq_true]
  tauto

/-- The characters of `toKey s` are the kebab-cased sections joined by
underscores: the strip pass removes nothing. -/
theorem toKey_data (s : String) :
    (toKey s).data = joinCh '_' ((goSplit s '.').map (fun sec => kebabOfList sec.data)) := by
  unfold toKey stripKey
  show List.filter keepKeyChar
      (joinCh '_' (((goSplit s '.').map toKebab).map String.data)) = _
  rw [List.map_map]
  have hmap : (goSplit s '.').map (String.data ∘ toKebab)
      = (goSplit s '.').map (fun sec => kebabOfList sec.data) := by
    apply List.map_congr_left
    intro sec _
    rfl
  rw [hmap]
  apply List.filter_eq_self.mpr
  intro c hc
  rcases mem_joinCh '_' _ c hc with rfl | ⟨w, hw, hcw⟩
  · rfl
  · rcases List.mem_map.mp hw with ⟨sec, _, rfl⟩
    rcases kebabOfList_chars sec.data c hcw with hld | rfl
    · exact keepKeyChar_lowerDigit c hld
    · rfl

/-- A successful Go-map lookup exhibits the binding. -/
theorem goLookup_mem {α : Type} {m : List (String × α)} {k : String} {v : α}
    (h : goLookup m k = some v) : (k, v) ∈ m := by
  unfold goLookup at h
  cases hf : m.find? (fun kv => kv.1 = k) with
  | none => rw [hf] at h; cases h
  | some kv =>
    rw [hf] at h
    injection h with h'
    have hk : kv.1 = k := by simpa using List.find?_some hf
    have hm := List.mem_of_find?_eq_some hf
    have hkv : (k, v) = kv := by
      cases kv
      simp_all
    rw [hkv]
    exact hm

/-- Membership after a Go-map assignment: old binding or the new one. -/
theorem mem_goInsert {α : Type} {m : List (String × α)} {k : String} {v : α}
    {p : String × α} (h : p ∈ goInsert m k v) : p ∈ m ∨ p = (k, v) := by
  unfold goInsert at h
  by_cases hf : (m.find? (fun kv => kv.1 = k)).isSome
  · rw [if_pos hf] at h
    rcases List.mem_map.mp h with ⟨q, hq, heq⟩
    by_cases hqk : q.1 = k
    · rw [if_pos hqk] at heq
      exact Or.inr heq.symm
    · rw [if_neg hqk] at heq
      exact Or.inl (heq ▸ hq)
  · rw [if_neg hf] at h
    rcases List.mem_append.mp h with h' | h'
    · exact Or.inl h'
    · exact Or.inr (List.mem_singleton.mp h')

/-- With the key absent, a Go-map assignment appends the binding. -/
theorem goInsert_of_lookup_none {α : Type} {m : List (String × α)} {k : String}
    {v : α} (h : goLookup m k = none) : goInsert m k v = m ++ [(k, v)] := by
  unfold goLookup at h
  unfold goInsert
  cases hf : m.find? (fun kv => kv.1 = k) with
  | none => simp [hf]
  | some kv => rw [hf] at h; cases h

/-- A `none` lookup means the key is bound nowhere in the map. -/
theorem goLookup_none_not_mem {α : Type} {m : List (String × α)} {k : String}
    (h : goLookup m k = none) : ∀ p ∈ m, p.1 ≠ k := by
  unfold goLookup at h
  cases hf : m.find? (fun kv => kv.1 = k) with
  | some kv => rw [hf] at h; cases h
  | none =>
    intro p hp hpk
    have := List.find?_eq_none.mp hf p hp
    simp [hpk] at this

/-- Unfolding equation: the variable loop body when the raw name is
already deduped. -/
theorem variableStep_pos (acc : List (String × GoAny) × List (String × String) × List DevCycleVariable)
    (v : TLVariable) (h : (goLookup acc.2.1 v.name).isSome = true) :
    variableStep acc v = (goInsert acc.1 (toKey v.name) v.value, acc.2.1, acc.2.2) := by
  show (if (goLookup acc.2.1 v.name).isSome = true
        then (goInsert acc.1 (toKey v.name) v.value, acc.2.1, acc.2.2)
        else (goInsert acc.1 (toKey v.name) v.value,
              goInsert acc.2.1 v.name v.type,
              acc.2.2 ++ [{ name := v.name,
                            description := "Imported from Taplytics: " ++ v.name,
                            key := toKey v.name,
                            type := convertTaplyticsVarTypeToDevCycle v.type }])) = _
  rw [if_pos h]

/-- Unfolding equation: the variable loop body on a fresh raw name. -/
theorem variableStep_neg (acc : List (String × GoAny) × List (String × String) × List DevCycleVariable)
    (v : TLVariable) (h : ¬ (goLookup acc.2.1 v.name).isSome = true) :
    variableStep acc v = (goInsert acc.1 (toKey v.name) v.value,
      goInsert acc.2.1 v.name v.type,
      acc.2.2 ++ [{ name := v.name,
                    description := "Imported from Taplytics: " ++ v.name,
                    key := toKey v.name,
                    type := convertTaplyticsVarTypeToDevCycle v.type }]) := by
  show (if (goLookup acc.2.1 v.name).isSome = true
        then (goInsert acc.1 (toKey v.name) v.value, acc.2.1, acc.2.2)
        else (goInsert acc.1 (toKey v.name) v.value,
              goInsert acc.2.1 v.name v.type,
              acc.2.2 ++ [{ name := v.name,
                            description := "Imported from Taplytics: " ++ v.name,
                            key := toKey v.name,
                            type := convertTaplyticsVarTypeToDevCycle v.type }])) = _
  rw [if_neg h]

/-- The variable loop preserves the dedup invariant. -/
theorem variableStep_inv (acc : List (String × GoAny) × List (String × String) × List DevCycleVariable)
    (v : TLVariable) (h : DedupInv acc.2.1 acc.2.2) :
    DedupInv (variableStep acc v).2.1 (variableStep acc v).2.2 := by
  by_cases hl : (goLookup acc.2.1 v.name).isSome = true
  · rw [variableStep_pos acc v hl]
    exact h
  · rw [variableStep_neg acc v hl]
    obtain ⟨h1, h2⟩ := h
    have hnone : goLookup acc.2.1 v.name = none :=
      Option.not_isSome_iff_eq_none.mp hl
    have hnotmem : v.name ∉ acc.2.1.map Prod.fst := by
      intro hm
      rcases List.mem_map.mp hm with ⟨q, hq, hqe⟩
      exact goLookup_none_not_mem hnone q hq hqe
    constructor
    · show (acc.2.2 ++ [_]).map DevCycleVariable.name
        = (goInsert acc.2.1 v.name v.type).map Prod.fst
      rw [goInsert_of_lookup_none hnone]
      simp [h1]
    · show ((goInsert acc.2.1 v.name v.type).map Prod.fst).Nodup
      rw [goInsert_of_lookup_none hnone]
      simp only [List.map_append, List.map_cons, List.map_nil]
      rw [List.nodup_append]
      refine ⟨h2, List.nodup_singleton v.name, ?_⟩
      intro x hx hx'
      rcases List.mem_singleton.mp hx' with rfl
      exact hnotmem hx

/-- Folding the variable loop preserves the dedup invariant. -/
theorem foldl_variableStep_inv (vs : List TLVariable) :
    ∀ (acc : List (String × GoAny) × List (String × String) × List DevCycleVariable),
      DedupInv acc.2.1 acc.2.2 →
      DedupInv ((vs.foldl variableStep acc).2.1) ((vs.foldl variableStep acc).2.2) := by
  induction vs with
  | nil => intro acc h; exact h
  | cons v vs ih => intro acc h; exact ih _ (variableStep_inv acc v h)

/-- The variation loop preserves the dedup invariant. -/
theorem variationStep_inv (st : FeatureBuildState) (tlVariation : TLVariation)
    (h : DedupInv st.dedupeVariables st.variables) :
    DedupInv (variationStep st tlVariation).dedupeVariables
      (variationStep st tlVariation).variables :=
  foldl_variableStep_inv tlVariation.variables ([], st.dedupeVariables, st.variables) h

/-- The whole feature build satisfies the dedup invariant. -/
theorem buildFeature_inv (f : TLImportRecord) :
    DedupInv (buildFeature f).dedupeVariables (buildFeature f).variables := by
  suffices h : ∀ (vs : List TLVariation) (st : FeatureBuildState),
      DedupInv st.dedupeVariables st.variables →
      DedupInv (vs.foldl variationStep st).dedupeVariables
        (vs.foldl variationStep st).variables by
    exact h f.variations ⟨[], [], []⟩ ⟨rfl, List.nodup_nil⟩
  intro vs
  induction vs with
  | nil => intro st h; exact h
  | cons v vs ih => intro st h; exact ih _ (variationStep_inv st v h)

/-- Unfolding equation: the merge-loop body on an unseen feature name. -/
theorem mergeStep_eq_none (acc : List (String × TLImportRecord))
    (feature : TLImportRecord) (hl : goLookup acc feature.featureName = none) :
    mergeStep acc feature = goInsert acc feature.featureName feature := by
  unfold mergeStep
  rw [hl]

/-- Unfolding equation: the merge-loop body on an already-seen feature
name. -/
theorem mergeStep_eq_some (acc : List (String × TLImportRecord))
    (feature stored : TLImportRecord)
    (hl : goLookup acc feature.featureName = some stored) :
    mergeStep acc feature =
      if stored.featureName ≠ feature.featureName then
        goInsert acc feature.featureName
          { stored with «variables» := stored.variables ++ feature.variables }
      else acc := by
  unfold mergeStep
  rw [hl]

/-- The merge-loop body keeps every stored record's variable list
non-empty. -/
theorem mergeStep_vars (acc : List (String × TLImportRecord)) (feature : TLImportRecord)
    (hacc : ∀ p ∈ acc, p.2.variables ≠ []) (hf : feature.variables ≠ []) :
    ∀ p ∈ mergeStep acc feature, p.2.variables ≠ [] := by
  intro p hp
  cases hl : goLookup acc feature.featureName with
  | none =>
    rw [mergeStep_eq_none acc feature hl] at hp
    rcases mem_goInsert hp with h | h
    · exact hacc p h
    · rw [h]; exact hf
  | some stored =>
    rw [mergeStep_eq_some acc feature stored hl] at hp
    by_cases hne : stored.featureName ≠ feature.featureName
    · rw [if_pos hne] at hp
      rcases mem_goInsert hp with h | h
      · exact hacc p h
      · rw [h]
        show stored.variables ++ feature.variables ≠ []
        intro hnil
        exact hf (List.append_eq_nil.mp hnil).2
    · rw [if_neg hne] at hp
      exact hacc p hp

/-- Every entry of the merged map owns at least one variable. -/
theorem merged_entries_have_variables (records : List TLImportRecord) :
    ∀ p ∈ mergeRecords records, p.2.variables ≠ [] := by
  have hclean : ∀ r ∈ cleanedRecords records, r.variables ≠ [] := by
    intro r hr
    have h2 := of_decide_eq_true (List.mem_filter.mp hr).2
    intro hnil
    rw [hnil] at h2
    exact h2 rfl
  suffices h : ∀ (rs : List TLImportRecord) (acc : List (String × TLImportRecord)),
      (∀ r ∈ rs, r.variables ≠ []) → (∀ p ∈ acc, p.2.variables ≠ []) →
      ∀ p ∈ rs.foldl mergeStep acc, p.2.variables ≠ [] by
    exact h (cleanedRecords records) [] hclean (by intro p hp; cases hp)
  intro rs
  induction rs with
  | nil => intro acc _ hacc; exact hacc
  | cons r rs ih =>
    intro acc hrs hacc
    exact ih (mergeStep acc r)
      (fun x hx => hrs x (List.mem_cons_of_mem r hx))
      (mergeStep_vars acc r hacc (hrs r (List.mem_cons_self r rs)))

/-- Generic preservation of a predicate along `List.foldl`. -/
theorem foldl_preserve {α β : Type _} (P : α → Prop) (step : α → β → α)
    (hstep : ∀ a b, P a → P (step a b)) :
    ∀ (l : List β) (a : α), P a → P (l.foldl step a) := by
  intro l
  induction l with
  | nil => intro a h; exact h
  | cons b l ih => intro a h; exact ih (step a b) (hstep a b h)

/-- `GetCustomDataProperties` never records an empty data key. -/
theorem GetCustomDataProperties_no_empty_key (t : TLImportFormat) :
    ∀ kv ∈ GetCustomDataProperties t, kv.1 ≠ "" := by
  unfold GetCustomDataProperties
  refine foldl_preserve (fun acc : List (String × String) => ∀ kv ∈ acc, kv.1 ≠ "") _ ?_ t.records []
    (by intro kv h; cases h)
  intro acc record hacc
  refine foldl_preserve (fun acc : List (String × String) => ∀ kv ∈ acc, kv.1 ≠ "") _ ?_ record.targets acc hacc
  intro acc2 target hacc2
  refine foldl_preserve (fun acc : List (String × String) => ∀ kv ∈ acc, kv.1 ≠ "") _ ?_
    target.audience.filters.filters acc2 hacc2
  intro acc3 aud hacc3
  by_cases hcond : (aud.subType = "customData" && aud.dataKey ≠ "") = true
  · rw [if_pos hcond]
    have hkey : aud.dataKey ≠ "" := by
      simp only [Bool.and_eq_true, decide_eq_true_eq] at hcond
      exact hcond.2
    by_cases hl : (goLookup acc3 aud.dataKey).isSome = true
    · rw [if_pos hl]
      exact hacc3
    · rw [if_neg hl]
      intro kv hkv
      rcases mem_goInsert hkv with h | h
      · exact hacc3 kv h
      · rw [h]
        exact hkey
  · rw [if_neg hcond]
    exact hacc3

/-- Unfolding equation for the custom-property creation loop on a cons. -/
theorem createCustomPropsLoop_cons (proj : String) (createOk : String → Bool)
    (key dataType : String) (rest : List (String × String)) :
    createCustomPropsLoop proj createOk ((key, dataType) :: rest) =
      if key = "" then createCustomPropsLoop proj createOk rest
      else if createOk key = true then
        ((createCustomPropsLoop proj createOk rest).1,
         APICall.postCustomProperty proj key (goToLower key) (dvcPropertyType dataType)
           :: (createCustomPropsLoop proj createOk rest).2)
      else (false, [APICall.postCustomProperty proj key (goToLower key)
        (dvcPropertyType dataType)]) := rfl

/-- The creation loop never issues a POST for an empty property key. -/
theorem createCustomPropsLoop_no_empty (proj : String) (createOk : String → Bool) :
    ∀ (cd : List (String × String)) (c : APICall),
      c ∈ (createCustomPropsLoop proj createOk cd).2 →
      ∀ pk lk ty, c = APICall.postCustomProperty proj pk lk ty → pk ≠ "" := by
  intro cd
  induction cd with
  | nil => intro c hc; cases hc
  | cons kv rest ih =>
    obtain ⟨key, dataType⟩ := kv
    intro c hc pk lk ty heq hpk
    rw [createCustomPropsLoop_cons] at hc
    by_cases hk : key = ""
    · rw [if_pos hk] at hc
      exact ih c hc pk lk ty heq hpk
    · rw [if_neg hk] at hc
      by_cases ho : createOk key = true
      · rw [if_pos ho] at hc
        rcases List.mem_cons.mp hc with rfl | h'
        · injection heq with _ hpk' _ _
          exact hk (hpk' ▸ hpk)
        · exact ih c h' pk lk ty heq hpk
      · rw [if_neg ho] at hc
        rcases List.mem_singleton.mp hc with rfl
        injection heq with _ hpk' _ _
        exact hk (hpk' ▸ hpk)

/-- With every creation succeeding, the loop reports success no matter how
many empty keys it skips. -/
theorem createCustomPropsLoop_all_ok (proj : String) (createOk : String → Bool)
    (hok : ∀ k, createOk k = true) :
    ∀ cd : List (String × String), (createCustomPropsLoop proj createOk cd).1 = true := by
  intro cd
  induction cd with
  | nil => rfl
  | cons kv rest ih =>
    obtain ⟨key, dataType⟩ := kv
    rw [createCustomPropsLoop_cons]
    by_cases hk : key = ""
    · rw [if_pos hk]
      exact ih
    · rw [if_neg hk, if_pos (hok key)]
      exact ih

/-- Unfolding equation for `createDevCycleFeature` with at least one
available response, when the feature has variables. -/
theorem createDevCycleFeature_cons (proj : String) (f : TLImportRecord) (s : Nat)
    (rest : List Nat) (hvars : ¬ (resolvedVariables f).length = 0) :
    createDevCycleFeature proj f (s :: rest) =
      if s = 409 then
        { ok := true, calls := [APICall.postFeature proj (featurePayload f)],
          logs := ["Feature already exists, skipping creation: " ++ f.featureName] }
      else if 500 ≤ s then
        { ok := (createDevCycleFeature proj f rest).ok,
          calls := APICall.postFeature proj (featurePayload f)
            :: (createDevCycleFeature proj f rest).calls,
          logs := "Retrying feature creation..." :: (createDevCycleFeature proj f rest).logs }
      else if s ≠ 201 then
        { ok := false, calls := [APICall.postFeature proj (featurePayload f)], logs := [] }
      else if f.audience.filters.filters.length > 0 then
        { ok := (runTargetingRules proj (toKey f.featureName) f
            ["development", "staging", "production"] rest).1,
          calls := APICall.postFeature proj (featurePayload f)
            :: (runTargetingRules proj (toKey f.featureName) f
                ["development", "staging", "production"] rest).2,
          logs := [] }
      else
        { ok := true, calls := [APICall.postFeature proj (featurePayload f)], logs := [] } := by
  conv_lhs => rw [createDevCycleFeature]
  rw [if_neg hvars]

/-- A two-component version string gets `".0"` appended by the fix of
`createTargetingRule`. -/
theorem fixVersionStr_two_part (s : String) (h : isTwoPartNumericVersion s = true) :
    fixVersionStr s = s ++ ".0" := by
  unfold isTwoPartNumericVersion at h
  unfold fixVersionStr
  rcases hg : goSplit s '.' with _ | ⟨a, _ | ⟨b, _ | ⟨c, l⟩⟩⟩ <;> rw [hg] at h <;> simp_all

/-- A three-component version string is left unchanged by the fix of
`createTargetingRule`. -/
theorem fixVersionStr_three_part (s : String) (h : isThreePartVersion s = true) :
    fixVersionStr s = s := by
  unfold isThreePartVersion at h
  simp only [decide_eq_true_eq] at h
  unfold fixVersionStr
  rw [if_neg (by omega)]

/-- For an `appVersion` or `platformVersion` item, the version-fix pass of
`createTargetingRule` keeps every field and maps `fixVersionValue` over the
values. -/
theorem normalizeVersionFilterItem_version (fi : TLFilterItem)
    (h : fi.subType = "appVersion" ∨ fi.subType = "platformVersion") :
    normalizeVersionFilterItem fi = { fi with values := fi.values.map fixVersionValue } := by
  rcases h with h | h <;> · unfold normalizeVersionFilterItem; rw [h]; rfl

/-- Targeting-rule creation issues no feature POST. -/
theorem runTargetingRules_no_feature_post (proj featureKey : String)
    (f : TLImportRecord) (envs : List String) (responses : List Nat) :
    featurePostCount (runTargetingRules proj featureKey f envs responses).2 = 0 := by
  induction envs generalizing responses with
  | nil => rfl
  | cons env envs ih =>
    unfold runTargetingRules createTargetingRule
    cases responses with
    | nil => simp [featurePostCount]
    | cons s rest =>
      by_cases h : s = 200
      · simp only [h, if_pos rfl, if_true]
        simp [featurePostCount, List.countP_append] at ih ⊢
        simpa [featurePostCount] using ih rest
      · simp [h, featurePostCount]

/-! ## Claim theorems -/

/-- C1: the claim says that when several records share a feature name, the
merged entry's variable list is the concatenation of all their variable
lists in input order. It is false: the guard
`mergedFeatures[feature.FeatureName].FeatureName != feature.FeatureName`
in `main.go` can never hold once the name is a key of the map, so a
subsequent record's variables are discarded. At the concrete input of two
records named `"checkout_v2_flag"` the merged entry keeps only the first
record's variable, not the two-element concatenation. -/
theorem merge_discards_second_record_variables :
    (goLookup
        (mergeRecords
          [mkRecord "checkout_v2_flag" [mkVar "buttonColor" "string"],
           mkRecord "checkout_v2_flag" [mkVar "showBanner" "boolean"]])
        "checkout_v2_flag").map TLImportRecord.variables
      = some [mkVar "buttonColor" "string"] ∧
    ([mkVar "buttonColor" "string"] : List TLVariable)
      ≠ [mkVar "buttonColor" "string", mkVar "showBanner" "boolean"] := by
  constructor
  · rfl
  · decide

/-- C6: the claim says merging is order-independent with respect to the
final variable-set membership of each feature. It is false on the code: the
merge loop of `main.go` never appends (its inner guard is unsatisfiable),
so only the first record with a given name survives, and swapping two
same-named records changes which variables the merged feature owns. -/
theorem merge_membership_depends_on_order :
    [mkRecord "f" [mkVar "a" "string"], mkRecord "f" [mkVar "b" "string"]].Perm
      [mkRecord "f" [mkVar "b" "string"], mkRecord "f" [mkVar "a" "string"]] ∧
    (goLookup (mergeRecords
        [mkRecord "f" [mkVar "a" "string"], mkRecord "f" [mkVar "b" "string"]])
        "f").map TLImportRecord.variables = some [mkVar "a" "string"] ∧
    (goLookup (mergeRecords
        [mkRecord "f" [mkVar "b" "string"], mkRecord "f" [mkVar "a" "string"]])
        "f").map TLImportRecord.variables = some [mkVar "b" "string"] ∧
    (some [mkVar "a" "string"] : Option (List TLVariable)) ≠ some [mkVar "b" "string"] := by
  refine ⟨List.Perm.swap _ _ _, rfl, rfl, ?_⟩
  decide

/-- C3: for every `appVersion` or `platformVersion` filter item of a
record's audience, the targeting payload built by `createTargetingRule`
carries the item with its comparator copied and its values mapped through
the version fix, which appends `".0"` to every string of exactly two
dot-separated numeric components and leaves three-component strings
unchanged. -/
theorem version_filters_normalized_in_patch_payload
    (proj featureKey env : String) (f : TLImportRecord) (responses : List Nat)
    (fi : TLFilterItem)
    (hsub : fi.subType = "appVersion" ∨ fi.subType = "platformVersion")
    (hmem : fi ∈ f.audience.filters.filters) :
    (createTargetingRule proj featureKey env f responses).2.1
      = [APICall.patchConfig proj featureKey env (targetingConfigPayload f)] ∧
    (targetingConfigPayload f).targets.map TargetPayload.audience
      = [normalizeAudience f.audience] ∧
    ({ fi with values := fi.values.map fixVersionValue } : TLFilterItem)
      ∈ (normalizeAudience f.audience).filters.filters ∧
    (∀ s : String, isTwoPartNumericVersion s = true →
        fixVersionValue (GoAny.str s) = GoAny.str (s ++ ".0")) ∧
    (∀ s : String, isThreePartVersion s = true →
        fixVersionValue (GoAny.str s) = GoAny.str s) := by
  refine ⟨?_, rfl, ?_, ?_, ?_⟩
  · cases responses with
    | nil => rfl
    | cons s rest => rfl
  · have : normalizeVersionFilterItem fi
        = { fi with values := fi.values.map fixVersionValue } :=
      normalizeVersionFilterItem_version fi hsub
    rw [← this]
    exact List.mem_map_of_mem normalizeVersionFilterItem hmem
  · intro s hs
    simp [fixVersionValue, fixVersionStr_two_part s hs]
  · intro s hs
    simp [fixVersionValue, fixVersionStr_three_part s hs]

/-- Witness for C3 at a concrete record: an `appVersion` item with values
`"10.2"` and `"10.2.3"` appears in the PATCH payload with `"10.2"`
normalized to `"10.2.0"` and `"10.2.3"` untouched. -/
theorem version_filters_normalized_in_patch_payload_witness :
    (appVersionItem.subType = "appVersion" ∨ appVersionItem.subType = "platformVersion") ∧
    appVersionItem ∈ appVersionFixture.audience.filters.filters ∧
    appVersionItem.values.map fixVersionValue
      = [GoAny.str "10.2.0", GoAny.str "10.2.3"] ∧
    ({ appVersionItem with values := appVersionItem.values.map fixVersionValue } : TLFilterItem)
      ∈ (normalizeAudience appVersionFixture.audience).filters.filters := by
  refine ⟨Or.inl rfl, List.mem_singleton.mpr rfl, by decide, ?_⟩
  exact (version_filters_normalized_in_patch_payload "proj" "key" "development"
    appVersionFixture [] appVersionItem
    (Or.inl rfl) (List.mem_singleton.mpr rfl)).2.2.1

/-- C4: the claim says a recognized pass-through sub-type such as
`platform` is copied into the translated filter unchanged and not omitted.
It is false on the code: the `default` branch of
`convertTLFiltersToDevCycleTargeting` fills in the translated item and then
executes `continue`, skipping the append, so the item is dropped. At the
concrete input of a single `platform` item the translated filter list is
empty. -/
theorem passthrough_filter_item_is_dropped :
    convertTLFiltersToDevCycleTargeting
      { operator := "and",
        filters := [{ type := "user", comparator := "=", values := [GoAny.str "iOS"],
                      subType := "platform", dataKey := "", dataKeyType := "" }] }
      = { operator := "and", filters := [] } := by
  decide

/-- C7: when the feature-creation POST answers 409, `createDevCycleFeature`
logs, returns success, and issues no targeting-rule PATCH — whatever
audience filters the record carries. -/
theorem conflict_is_success_without_targeting (proj : String) (f : TLImportRecord)
    (responses : List Nat) (hvars : resolvedVariables f ≠ []) :
    (createDevCycleFeature proj f (409 :: responses)).ok = true ∧
    patchCallCount (createDevCycleFeature proj f (409 :: responses)).calls = 0 := by
  unfold createDevCycleFeature
  rw [if_neg (by simpa using hvars)]
  exact ⟨rfl, rfl⟩

/-- Witness for C7: a feature with one variable and one audience filter,
where the oracle answers 409: success and zero PATCHes. -/
theorem conflict_is_success_without_targeting_witness :
    resolvedVariables conflictFixture ≠ [] ∧
    (createDevCycleFeature "proj" conflictFixture [409]).ok = true ∧
    patchCallCount (createDevCycleFeature "proj" conflictFixture [409]).calls = 0 :=
  ⟨by decide, conflict_is_success_without_targeting "proj" conflictFixture [] (by decide)⟩

/-- C9 counterexample: the normalizer is not idempotent on its own output.
`toKey "subscription.v2.text.overwrite"` is `"subscription_v2_text_overwrite"`,
an already-normalized string, but applying `toKey` to it yields
`"subscription-v2-text-overwrite"`: `strcase.ToKebab` treats the
underscores that `toKey` itself inserted as word delimiters and replaces
them with hyphens. -/
theorem toKey_not_idempotent_on_own_output :
    toKey (toKey "subscription.v2.text.overwrite")
      ≠ toKey "subscription.v2.text.overwrite" := by decide

/-- C9 (amended): the three concrete normalizations of the claim hold, and
the normalizer is idempotent on every output without an underscore; outputs
of dotted inputs contain underscores and are not fixed points. -/
theorem toKey_examples_and_conditional_idempotence :
    toKey "enableDarkModeColor" = "enable-dark-mode-color" ∧
    toKey "subscription.v2.text.overwrite" = "subscription_v2_text_overwrite" ∧
    toKey "discovery.newOrderTypeUi.ios" = "discovery_new-order-type-ui_ios" ∧
    ∀ s : String, '_' ∉ (toKey s).data → toKey (toKey s) = toKey s := by
  refine ⟨by decide, by decide, by decide, ?_⟩
  intro s h
  have hdata := toKey_data s
  rcases hsec : goSplit s '.' with _ | ⟨sec, rest⟩
  · exact absurd hsec (splitChAux_ne_nil '.' s.data [])
  · rcases rest with _ | ⟨sec2, rest'⟩
    · rw [hsec] at hdata
      have hd1 : (toKey s).data = kebabOfList sec.data := hdata
      have hnodot : '.' ∉ (toKey s).data := by
        rw [hd1]
        intro hdot
        rcases kebabOfList_chars sec.data '.' hdot with hld | heq
        · exact absurd hld (by decide)
        · exact absurd heq (by decide)
      have hsplit : goSplit (toKey s) '.' = [toKey s] := goSplit_not_mem _ '.' hnodot
      have h2 := toKey_data (toKey s)
      rw [hsplit] at h2
      have h3 : (toKey (toKey s)).data = kebabOfList ((toKey s).data) := h2
      have h4 : (toKey (toKey s)).data = (toKey s).data := by
        rw [h3, hd1, kebabOfList_idem, ← hd1]
      exact congrArg String.mk h4
    · exfalso
      apply h
      rw [hdata, hsec]
      simp only [List.map_cons]
      exact sep_mem_joinCh '_' _ _ _

/-- Witness for the amended C9 at `"enableDarkModeColor"`: its
normalization has no underscore and is a fixed point of `toKey`. -/
theorem toKey_examples_and_conditional_idempotence_witness :
    ('_' ∉ (toKey "enableDarkModeColor").data) ∧
    toKey (toKey "enableDarkModeColor") = toKey "enableDarkModeColor" :=
  ⟨by decide,
   toKey_examples_and_conditional_idempotence.2.2.2 "enableDarkModeColor" (by decide)⟩

/-- C2: the claim says a 5xx feature-creation response triggers exactly one
bounded retry. It is false on the code: the 5xx branch of
`createDevCycleFeature` calls itself recursively with no attempt counter,
so with `n` consecutive 503 responses followed by a 201 the function issues
`n + 1` feature POSTs — the retrying continues as long as the server keeps
answering 5xx. -/
theorem feature_creation_retry_is_unbounded (proj : String) (f : TLImportRecord)
    (n : Nat) (hvars : resolvedVariables f ≠ []) :
    featurePostCount (createDevCycleFeature proj f
        (List.replicate n 503 ++ [201])).calls = n + 1 := by
  have hlen : ¬ (resolvedVariables f).length = 0 := by simpa using hvars
  induction n with
  | zero =>
    rw [show List.replicate 0 503 ++ [201] = [201] from rfl]
    rw [createDevCycleFeature_cons proj f 201 [] hlen]
    rw [if_neg (by decide), if_neg (by decide), if_neg (by decide)]
    by_cases hfa : f.audience.filters.filters.length > 0
    · rw [if_pos hfa]
      simp only [featurePostCount, List.countP_cons]
      have := runTargetingRules_no_feature_post proj (toKey f.featureName) f
        ["development", "staging", "production"] []
      simp only [featurePostCount] at this
      simp [this]
    · rw [if_neg hfa]
      simp [featurePostCount]
  | succ n ih =>
    rw [show List.replicate (n + 1) 503 ++ [201]
        = 503 :: (List.replicate n 503 ++ [201]) from by
      simp [List.replicate_succ]]
    rw [createDevCycleFeature_cons proj f 503 _ hlen]
    rw [if_neg (by decide), if_pos (by decide)]
    simp only [featurePostCount, List.countP_cons] at ih ⊢
    simp at ih ⊢
    omega

/-- Witness for C2: a concrete feature and three 503 responses followed by
a 201 produce four feature POSTs — more than the one retry the claim
allows. -/
theorem feature_creation_retry_is_unbounded_witness :
    resolvedVariables conflictFixture ≠ [] ∧
    featurePostCount (createDevCycleFeature "proj" conflictFixture
        (List.replicate 3 503 ++ [201])).calls = 4 :=
  ⟨by decide,
   feature_creation_retry_is_unbounded "proj" conflictFixture 3 (by decide)⟩

/-- C5 counterexample: the claim says the DestinationFeature variable list
is deduplicated by normalized key, so the payload never holds two variables
with the same key. The dedup map of `createDevCycleFeature` is keyed by the
raw name instead, so the distinct raw names `"buttonColor"` and
`"button-color"`, which both normalize to `"button-color"`, yield two
payload variables with identical keys. -/
theorem payload_duplicate_normalized_keys :
    ((featurePayload dupKeyFixture).variables.map DevCycleVariable.key)
      = ["button-color", "button-color"] ∧
    ¬ ((featurePayload dupKeyFixture).variables.map DevCycleVariable.key).Nodup := by
  exact ⟨by decide, by decide⟩

/-- C5 (amended): the variable list is deduplicated by raw variable name —
only the first-seen variable with a given raw name is kept — so the payload
never contains two variables with the same raw name; names are not deduped
by normalized key, so two raw names with equal normalizations both
appear. -/
theorem payload_variables_nodup_by_raw_name (f : TLImportRecord) :
    ((featurePayload f).variables.map DevCycleVariable.name).Nodup := by
  obtain ⟨h1, h2⟩ := buildFeature_inv f
  show ((buildFeature f).variables.map DevCycleVariable.name).Nodup
  rw [h1]
  exact h2

/-- C8: no zero-variable feature is ever imported. First, every entry of
the merged map owns at least one variable, because `main` drops
zero-variable records before merging. Second, a feature whose resolved
variable list is empty makes `createDevCycleFeature` return success with no
HTTP request and exactly the skip log line — reported, not silent. -/
theorem zero_variable_features_never_imported :
    (∀ (records : List TLImportRecord), ∀ p ∈ mergeRecords records,
        p.2.variables ≠ []) ∧
    (∀ (proj : String) (f : TLImportRecord) (responses : List Nat),
       resolvedVariables f = [] →
       (createDevCycleFeature proj f responses).ok = true ∧
       (createDevCycleFeature proj f responses).calls = [] ∧
       (createDevCycleFeature proj f responses).logs
         = ["No variables to import for feature: " ++ f.featureName]) := by
  constructor
  · intro records p hp
    exact merged_entries_have_variables records p hp
  · intro proj f responses h
    unfold createDevCycleFeature
    rw [if_pos (by rw [h]; rfl)]
    exact ⟨rfl, rfl, rfl⟩

/-- Witness for C8: a one-record input whose merged entry keeps its
variable, and a variationless feature that is skipped with the log line and
no calls. -/
theorem zero_variable_features_never_imported_witness :
    (("g", mkRecord "g" [mkVar "a" "string"])
        ∈ mergeRecords [mkRecord "g" [mkVar "a" "string"]]) ∧
    (mkRecord "g" [mkVar "a" "string"]).variables ≠ [] ∧
    resolvedVariables (mkRecord "g" []) = [] ∧
    (createDevCycleFeature "proj" (mkRecord "g" []) []).ok = true ∧
    (createDevCycleFeature "proj" (mkRecord "g" []) []).calls = [] ∧
    (createDevCycleFeature "proj" (mkRecord "g" []) []).logs
      = ["No variables to import for feature: " ++ "g"] := by
  have hmem : ("g", mkRecord "g" [mkVar "a" "string"])
      ∈ mergeRecords [mkRecord "g" [mkVar "a" "string"]] :=
    List.mem_singleton.mpr rfl
  have h2 := zero_variable_features_never_imported.2 "proj" (mkRecord "g" []) [] rfl
  exact ⟨hmem, zero_variable_features_never_imported.1 _ _ hmem, rfl,
    h2.1, h2.2.1, h2.2.2⟩

/-- C10: an empty custom-data key never reaches a property-creation call:
`checkAndCreateCustomProperties` silently skips empty keys (success when
every attempted creation succeeds), and `GetCustomDataProperties` never
records an empty data key in its result map. -/
theorem empty_custom_data_key_never_created (proj : String)
    (existingProps : List String) (createOk : String → Bool)
    (customData : List (String × String)) (t : TLImportFormat) :
    (∀ c ∈ (checkAndCreateCustomProperties proj existingProps createOk customData).2,
       ∀ pk lk ty, c = APICall.postCustomProperty proj pk lk ty → pk ≠ "") ∧
    ((∀ k, createOk k = true) →
       (checkAndCreateCustomProperties proj existingProps createOk customData).1 = true) ∧
    (∀ kv ∈ GetCustomDataProperties t, kv.1 ≠ "") := by
  refine ⟨?_, ?_, GetCustomDataProperties_no_empty_key t⟩
  · intro c hc pk lk ty heq
    rcases List.mem_cons.mp hc with rfl | h'
    · cases heq
    · exact createCustomPropsLoop_no_empty proj createOk _ c h' pk lk ty heq
  · intro hok
    exact createCustomPropsLoop_all_ok proj createOk hok _

/-- Witness for C10: with one existing property, an always-succeeding
service, and requirements containing an empty key, the reconciliation
returns success. -/
theorem empty_custom_data_key_never_created_witness :
    (∀ k : String, (fun _ : String => true) k = true) ∧
    (checkAndCreateCustomProperties "proj" ["plan"] (fun _ => true)
        [("", "String"), ("tier", "Number")]).1 = true :=
  ⟨fun _ => rfl,
   (empty_custom_data_key_never_created "proj" ["plan"] (fun _ => true)
       [("", "String"), ("tier", "Number")]
       { tlProject := "t", dvcProject := "d", records := [] }).2.1 (fun _ => rfl)⟩

end TaplyticsImport
